import Mathlib

/-!
Verification of the date/time resolver (`parse_datetime`) and the
authentication gate (`get_calendar_service`) of the Google Calendar CLI
skill (`src/container/skills/google-calendar.py`).

The Python code is shallowly embedded: Python `datetime` values become the
`PyDateTime` structure (wall-clock calendar fields plus an optional UTC
offset in minutes standing for `tzinfo`), `pytz` timezone objects become
the `Tz` structure (an IANA name plus a fixed UTC offset in minutes), and
the external flexible parser (`dateutil.parser.parse`) is modelled by
`date_parser_parse`, restricted to the ISO-8601 shapes exercised by the
specification (`YYYY-MM-DD`, `YYYY-MM-DDTHH:MM:SS`, and the latter with a
`+HH:MM` / `-HH:MM` offset); on every other input it fails, which models
`dateutil`'s `ParserError` (the spec's `DateParseError`).

`datetime.now(tz)` is modelled by passing the current wall-clock reading
in `tz` as the explicit argument `now0`; `awareNow` attaches the zone's
offset exactly as `datetime.now(tz)` yields an aware value.
-/

/-- A Python `str` character-wise digit test and value, `ord(c) - ord('0')`. -/
def digitVal? (c : Char) : Option Nat :=
  if 48 ≤ c.toNat ∧ c.toNat ≤ 57 then some (c.toNat - 48) else none

/-- The decimal digit character for `n % 10`. -/
def digitChar10 (n : Nat) : Char := Char.ofNat (48 + n % 10)

/-- Two decimal digits, as in `strftime` / `%02d`. -/
def pad2L (n : Nat) : List Char := [digitChar10 (n / 10), digitChar10 n]

/-- Four decimal digits, as in `strftime` / `%04d` (faithful for years up
to 9999, the only ones reachable under the `datetime` year cap). -/
def pad4L (n : Nat) : List Char :=
  [digitChar10 (n / 1000), digitChar10 (n / 100), digitChar10 (n / 10), digitChar10 n]

/-- Parse two decimal digit characters. -/
def parse2 (a b : Char) : Option Nat := do
  let x ← digitVal? a
  let y ← digitVal? b
  pure (10 * x + y)

/-- Parse four decimal digit characters. -/
def parse4 (a b c d : Char) : Option Nat := do
  let x ← parse2 a b
  let y ← parse2 c d
  pure (100 * x + y)

/-- A Python `datetime.date`: proleptic Gregorian calendar fields. -/
structure PyDate where
  year : Nat
  month : Nat
  day : Nat
  deriving DecidableEq

/-- Leap year test of the Gregorian calendar (Python `calendar.isleap`). -/
def isLeap (y : Nat) : Bool := (y % 4 == 0 && y % 100 != 0) || (y % 400 == 0)

/-- Number of days in month `m` of year `y`. -/
def daysInMonth (y m : Nat) : Nat :=
  if m = 2 then (if isLeap y then 29 else 28)
  else if m = 4 ∨ m = 6 ∨ m = 9 ∨ m = 11 then 30 else 31

/-- Days in year `y` before the first of month `m`. -/
def daysBeforeMonth (y : Nat) : Nat → Nat
  | 0 => 0
  | 1 => 0
  | k + 2 => daysBeforeMonth y (k + 1) + daysInMonth y (k + 1)

/-- The fields form a real proleptic-Gregorian calendar date.  Python's
`datetime` additionally caps the year at `MAXYEAR = 9999`; that cap is not
part of this shape invariant and is taken as an explicit hypothesis by the
theorems whose date arithmetic could reach it. -/
def ValidDate (d : PyDate) : Prop :=
  1 ≤ d.year ∧ 1 ≤ d.month ∧ d.month ≤ 12 ∧ 1 ≤ d.day ∧ d.day ≤ daysInMonth d.year d.month

instance (d : PyDate) : Decidable (ValidDate d) := by
  unfold ValidDate; infer_instance

/-- Python's `date.toordinal`: day number with `0001-01-01` as day 1. -/
def toOrdinal (d : PyDate) : Nat :=
  365 * (d.year - 1) + (d.year - 1) / 4 - (d.year - 1) / 100 + (d.year - 1) / 400 +
    daysBeforeMonth d.year d.month + d.day

/-- Python's `date.weekday`: 0 = Monday, ..., 6 = Sunday. -/
def weekday (d : PyDate) : Nat := (toOrdinal d + 6) % 7

/-- Successor day in the proleptic Gregorian calendar. -/
def nextDate (d : PyDate) : PyDate :=
  if d.day < daysInMonth d.year d.month then ⟨d.year, d.month, d.day + 1⟩
  else if d.month < 12 then ⟨d.year, d.month + 1, 1⟩
  else ⟨d.year + 1, 1, 1⟩

/-- `d + timedelta(days = n)` on the date component, as unbounded
proleptic-Gregorian arithmetic.  CPython raises `OverflowError` when the
result would pass `datetime.max` (9999-12-31); that boundary is modelled
separately by `addDaysDTChecked`. -/
def addDaysDate (d : PyDate) : Nat → PyDate
  | 0 => d
  | n + 1 => nextDate (addDaysDate d n)

/-- A Python `datetime.datetime`: wall-clock fields plus an optional fixed
UTC offset in minutes standing for `tzinfo` (`none` = naive). -/
structure PyDateTime where
  date : PyDate
  hour : Nat
  minute : Nat
  second : Nat
  tzinfo : Option Int
  deriving DecidableEq

/-- Python `dt.replace(hour = h, minute = mi, second = s, microsecond = 0)`. -/
def replaceTime (dt : PyDateTime) (h mi s : Nat) : PyDateTime :=
  { dt with hour := h, minute := mi, second := s }

/-- Python `dt + timedelta(days = n)`: wall-clock day arithmetic, the time
of day and `tzinfo` unchanged. -/
def addDaysDT (dt : PyDateTime) (n : Nat) : PyDateTime :=
  { dt with date := addDaysDate dt.date n }

/-- `now + timedelta(days = n)` as CPython executes it on lines 119 and
130 of the source: the shift succeeds only while the result stays at or
below `datetime.max` (year 9999); past it the interpreter raises
`OverflowError`, modelled as `none`. -/
def addDaysDTChecked (dt : PyDateTime) (n : Nat) : Option PyDateTime :=
  if (addDaysDate dt.date n).year ≤ 9999 then some (addDaysDT dt n) else none

/-- A `pytz` timezone object: its IANA name (`str(tz)`) and its fixed UTC
offset in minutes. -/
structure Tz where
  name : String
  offset : Int
  deriving DecidableEq

/-- `pytz.UTC`. -/
def pytzUTC : Tz := ⟨"UTC", 0⟩

/-- `datetime.now(tz)`: the wall-clock reading `now0` made aware in the
zone picked on line 110 of the source (`timezone` when given, else UTC). -/
def awareNow (timezone : Option Tz) (now0 : PyDateTime) : PyDateTime :=
  { now0 with tzinfo := some (timezone.getD pytzUTC).offset }

/-- Python `str.strip()` on a character list. -/
def trimChars (l : List Char) : List Char :=
  ((l.dropWhile Char.isWhitespace).reverse.dropWhile Char.isWhitespace).reverse

/-- Python `s.lower().strip()`. -/
def pyLowerStrip (s : String) : String :=
  String.mk (trimChars (s.toList.map Char.toLower))

/-- Python `s.strip()`. -/
def pyStrip (s : String) : String := String.mk (trimChars s.toList)

/-- Python `s[n:]`. -/
def pyDrop (s : String) (n : Nat) : String := String.mk (s.toList.drop n)

/-- Python `s.startswith(p)`. -/
def pyStarts (s p : String) : Bool := p.toList.isPrefixOf s.toList

/-- Python `":" in s`. -/
def hasColon (s : String) : Bool := s.toList.contains ':'

/-- The canonical weekday list of line 123 of the source. -/
def days : List String :=
  ["monday", "tuesday", "wednesday", "thursday", "friday", "saturday", "sunday"]

/-- The `i`-th canonical weekday name. -/
def dayNameS (i : Fin 7) : String := days.getD i.val ""

/-- `mkDate?` builds the date when the fields are a real calendar date,
as `datetime(y, m, d)` does (raising `ValueError` otherwise). -/
def mkDate? (y m d : Nat) : Option PyDate :=
  if 1 ≤ y ∧ 1 ≤ m ∧ m ≤ 12 ∧ 1 ≤ d ∧ d ≤ daysInMonth y m then some ⟨y, m, d⟩ else none

/-- Parse the eight digit characters of `YYYY-MM-DD` (separators already
checked by the caller). -/
def parseDateChars (a b c d e f g h : Char) : Option PyDate := do
  let y ← parse4 a b c d
  let m ← parse2 e f
  let dd ← parse2 g h
  mkDate? y m dd

/-- Parse a `+HH:MM` / `-HH:MM` UTC offset into minutes. -/
def parseOffset? (sign o1 o2 o3 o4 : Char) : Option Int := do
  let oh ← parse2 o1 o2
  let om ← parse2 o3 o4
  if oh < 24 ∧ om < 60 then
    if sign = '+' then pure ((oh * 60 + om : Nat) : Int)
    else if sign = '-' then pure (-((oh * 60 + om : Nat) : Int))
    else none
  else none

/-- Model of the external flexible parser `dateutil.parser.parse`,
restricted to the ISO-8601 shapes the specification exercises: a bare date
`YYYY-MM-DD` (time defaulting to midnight, naive), a naive date-time
`YYYY-MM-DDTHH:MM:SS`, and an aware date-time with a `+HH:MM` / `-HH:MM`
offset. Any other input fails (`dateutil.parser.ParserError`, the spec's
`DateParseError`). -/
def date_parser_parse (s : String) : Option PyDateTime :=
  match s.toList with
  | [a, b, c, d, s1, e, f, s2, g, h] =>
    if s1 = '-' ∧ s2 = '-' then
      (parseDateChars a b c d e f g h).map (fun dte => ⟨dte, 0, 0, 0, none⟩)
    else none
  | [a, b, c, d, s1, e, f, s2, g, h, t1, i, j, c1, k, l, c2, m, n] =>
    if s1 = '-' ∧ s2 = '-' ∧ t1 = 'T' ∧ c1 = ':' ∧ c2 = ':' then do
      let dte ← parseDateChars a b c d e f g h
      let hh ← parse2 i j
      let mi ← parse2 k l
      let se ← parse2 m n
      if hh < 24 ∧ mi < 60 ∧ se < 60 then pure ⟨dte, hh, mi, se, none⟩ else none
    else none
  | [a, b, c, d, s1, e, f, s2, g, h, t1, i, j, c1, k, l, c2, m, n, sg, o1, o2, c3, o3, o4] =>
    if s1 = '-' ∧ s2 = '-' ∧ t1 = 'T' ∧ c1 = ':' ∧ c2 = ':' ∧ c3 = ':' then do
      let dte ← parseDateChars a b c d e f g h
      let hh ← parse2 i j
      let mi ← parse2 k l
      let se ← parse2 m n
      let off ← parseOffset? sg o1 o2 o3 o4
      if hh < 24 ∧ mi < 60 ∧ se < 60 then pure ⟨dte, hh, mi, se, some off⟩ else none
    else none
  | _ => none

/-- `dt.strftime("%Y-%m-%d")`, character list. -/
def strftimeDateL (d : PyDate) : List Char :=
  pad4L d.year ++ '-' :: (pad2L d.month ++ '-' :: pad2L d.day)

/-- `dt.strftime("%Y-%m-%d")` (line 138 of the source). -/
def strftimeDate (d : PyDate) : String := String.mk (strftimeDateL d)

/-- The `±HH:MM` suffix `datetime.isoformat` prints for an aware value
with a whole-minute UTC offset. -/
def offsetL (off : Int) : List Char :=
  (if off < 0 then '-' else '+') :: (pad2L (off.natAbs / 60) ++ ':' :: pad2L (off.natAbs % 60))

/-- `dt.isoformat()`, character list: date, `T`, time, then the offset
when the value is aware. -/
def isoformatL (dt : PyDateTime) : List Char :=
  strftimeDateL dt.date ++
    'T' :: (pad2L dt.hour ++ ':' :: (pad2L dt.minute ++ ':' :: pad2L dt.second)) ++
    (match dt.tzinfo with
     | none => []
     | some off => offsetL off)

/-- `dt.isoformat()` (line 144 of the source). -/
def isoformat (dt : PyDateTime) : String := String.mk (isoformatL dt)

/-- The `next <weekday>` branch, lines 125-130 of the source: signed day
difference, pushed up by a week when not positive, then 09:00 local. -/
def nextWeekdayDT (target_day : Nat) (now : PyDateTime) : PyDateTime :=
  let current_day := weekday now.date
  let d0 : Int := (target_day : Int) - (current_day : Int)
  let days_ahead : Int := if d0 ≤ 0 then d0 + 7 else d0
  replaceTime (addDaysDT now days_ahead.toNat) 9 0 0

/-- Lines 114-134 of `parse_datetime`: keyword resolution against the
lower-cased, stripped input, with the literal-parser fallback on the
original string.  `none` models an uncaught `ParserError`. -/
def resolveDt (dt_str : String) (now : PyDateTime) : Option PyDateTime :=
  if pyLowerStrip dt_str = "today" then
    some (replaceTime now 0 0 0)
  else if pyLowerStrip dt_str = "tomorrow" then
    some (replaceTime (addDaysDT now 1) 0 0 0)
  else if pyStarts (pyLowerStrip dt_str) "next " then
    match days.findIdx? (fun d => d == pyStrip (pyDrop (pyLowerStrip dt_str) 5)) with
    | some target_day => some (nextWeekdayDT target_day now)
    | none => date_parser_parse dt_str
  else date_parser_parse dt_str

/-- The resolver's output: the Google Calendar event-time dictionary,
either `{"date": d}` (all-day) or `{"dateTime": x, "timeZone": z}`. -/
inductive GCalTime where
  | date (d : String)
  | dateTime (dt : String) (timeZone : String)
  deriving DecidableEq

/-- The literal ISO text of a resolver result. -/
def specText : GCalTime → String
  | .date d => d
  | .dateTime x _ => x

/-- `parse_datetime(dt_str, timezone)` of lines 108-144 of the source,
with `datetime.now(tz)` passed explicitly as `now0` (the wall clock in the
resolved zone). -/
def parse_datetime (dt_str : String) (timezone : Option Tz) (now0 : PyDateTime) :
    Option GCalTime :=
  match resolveDt dt_str (awareNow timezone now0) with
  | none => none
  | some dt =>
    if dt.hour = 0 ∧ dt.minute = 0 ∧ dt.second = 0 ∧ hasColon dt_str = false then
      some (.date (strftimeDate dt.date))
    else if dt.tzinfo = none then
      some (.dateTime (isoformat { dt with tzinfo := some (timezone.getD pytzUTC).offset })
        (timezone.getD pytzUTC).name)
    else
      some (.dateTime (isoformat dt) (timezone.getD pytzUTC).name)

/-- Credentials as far as `get_calendar_service` inspects them: presence
and the `expired` flag. -/
structure Credentials where
  token : String
  expired : Bool
  deriving DecidableEq

/-- Outcome of `get_calendar_service`: either the printed sentinel line
together with the process exit status, or an authenticated service. -/
inductive ServiceOutcome where
  | authRequired (line : String) (exitCode : Nat)
  | service
  deriving DecidableEq

/-- The sentinel line printed on lines 98 and 102 of the source. -/
def authSentinel : String := "AUTH_REQUIRED:google-calendar:calendar,calendar.events"

/-- Lines 92-105 of the source: missing or expired credentials print the
sentinel and exit with status 0; otherwise the service is built. -/
def get_calendar_service (creds : Option Credentials) : ServiceOutcome :=
  match creds with
  | none => .authRequired authSentinel 0
  | some c => if c.expired then .authRequired authSentinel 0 else .service

/-- A sample wall-clock instant, 2024-01-15 (a Monday) 10:30:00. -/
def sampleNow : PyDateTime := ⟨⟨2024, 1, 15⟩, 10, 30, 0, none⟩

/-! ### Digit and character facts -/

theorem digitChar10_mod (n : Nat) : digitChar10 n = digitChar10 (n % 10) := by
  unfold digitChar10
  rw [Nat.mod_mod_of_dvd _ (by norm_num)]

theorem digitVal?_digitChar10 (n : Nat) : digitVal? (digitChar10 n) = some (n % 10) := by
  have hb : ∀ m, m < 10 → digitVal? (digitChar10 m) = some m := by decide
  rw [digitChar10_mod]
  exact hb _ (Nat.mod_lt _ (by norm_num))

theorem digitVal?_lt (c : Char) (v : Nat) (h : digitVal? c = some v) : v < 10 := by
  unfold digitVal? at h
  split at h
  · rename_i hd
    simp only [Option.some.injEq] at h
    omega
  · exact absurd h (by simp)

theorem parse2_pad2 (n : Nat) (h : n < 100) :
    parse2 (digitChar10 (n / 10)) (digitChar10 n) = some n := by
  simp [parse2, digitVal?_digitChar10]
  omega

theorem parse4_pad4 (n : Nat) (h : n < 10000) :
    parse4 (digitChar10 (n / 1000)) (digitChar10 (n / 100)) (digitChar10 (n / 10))
      (digitChar10 n) = some n := by
  simp [parse4, parse2, digitVal?_digitChar10]
  omega

theorem digit_toLower (n : Nat) : Char.toLower (digitChar10 n) = digitChar10 n := by
  have hb : ∀ m, m < 10 → Char.toLower (digitChar10 m) = digitChar10 m := by decide
  rw [digitChar10_mod]
  exact hb _ (Nat.mod_lt _ (by norm_num))

theorem digit_not_ws (n : Nat) : (digitChar10 n).isWhitespace = false := by
  have hb : ∀ m, m < 10 → (digitChar10 m).isWhitespace = false := by decide
  rw [digitChar10_mod]
  exact hb _ (Nat.mod_lt _ (by norm_num))

theorem digit_ne_colon (n : Nat) : digitChar10 n ≠ ':' := by
  have hb : ∀ m, m < 10 → digitChar10 m ≠ ':' := by decide
  rw [digitChar10_mod]
  exact hb _ (Nat.mod_lt _ (by norm_num))

theorem digit_ne_n (n : Nat) : digitChar10 n ≠ 'n' := by
  have hb : ∀ m, m < 10 → digitChar10 m ≠ 'n' := by decide
  rw [digitChar10_mod]
  exact hb _ (Nat.mod_lt _ (by norm_num))

/-! ### List and trimming facts -/

theorem dropWhile_all_false {p : Char → Bool} :
    ∀ {l : List Char}, (∀ c ∈ l, p c = false) → l.dropWhile p = l := by
  intro l h
  induction l with
  | nil => rfl
  | cons a t ih =>
    rw [List.dropWhile_cons_of_neg]
    simp [h a (by simp)]

theorem trimChars_eq_self {l : List Char} (h : ∀ c ∈ l, c.isWhitespace = false) :
    trimChars l = l := by
  unfold trimChars
  rw [dropWhile_all_false h, dropWhile_all_false (by intro c hc; exact h c (List.mem_reverse.mp hc)),
    List.reverse_reverse]

theorem mem_dropWhile_of_false {p : Char → Bool} {c : Char} :
    ∀ {l : List Char}, c ∈ l → p c = false → c ∈ l.dropWhile p := by
  intro l hm hp
  induction l with
  | nil => simp at hm
  | cons a t ih =>
    by_cases ha : p a
    · rw [List.dropWhile_cons_of_pos ha]
      rcases List.mem_cons.mp hm with rfl | ht
      · rw [ha] at hp; simp at hp
      · exact ih ht
    · rw [List.dropWhile_cons_of_neg ha]
      exact hm

theorem mem_trimChars {c : Char} {l : List Char} (hm : c ∈ l)
    (hws : c.isWhitespace = false) : c ∈ trimChars l := by
  unfold trimChars
  rw [List.mem_reverse]
  exact mem_dropWhile_of_false (List.mem_reverse.mpr (mem_dropWhile_of_false hm hws)) hws

/-- A colon in the raw string survives into `pyLowerStrip`. -/
theorem colon_mem_pyLowerStrip {s : String} (h : hasColon s = true) :
    ':' ∈ (pyLowerStrip s).toList := by
  unfold hasColon at h
  unfold pyLowerStrip
  have hmem : ':' ∈ s.toList := by simpa using h
  have hmap : ':' ∈ s.toList.map Char.toLower :=
    List.mem_map.mpr ⟨':', hmem, by decide⟩
  exact mem_trimChars hmap (by decide)

/-- If the lower-cased, stripped input has no colon, the raw string has none. -/
theorem hasColon_false_of_lower {s : String} {t : String}
    (hl : pyLowerStrip s = t) (ht : ':' ∉ t.toList) : hasColon s = false := by
  by_contra hc
  exact ht (hl ▸ colon_mem_pyLowerStrip (by simpa using hc))

/-! ### Calendar arithmetic -/

theorem one_le_daysInMonth (y m : Nat) : 1 ≤ daysInMonth y m := by
  unfold daysInMonth
  split
  · split <;> norm_num
  · split <;> norm_num

theorem daysInMonth_le_31 (y m : Nat) : daysInMonth y m ≤ 31 := by
  unfold daysInMonth
  split
  · split <;> norm_num
  · split <;> norm_num

theorem validDate_nextDate {d : PyDate} (h : ValidDate d) : ValidDate (nextDate d) := by
  obtain ⟨y, m, dd⟩ := d
  obtain ⟨hy, hm1, hm2, hd1, hd2⟩ := h
  dsimp only at hy hm1 hm2 hd1 hd2
  unfold nextDate
  dsimp only
  split
  · rename_i hlt
    unfold ValidDate
    dsimp only
    omega
  · split
    · rename_i hmlt
      unfold ValidDate
      dsimp only
      have h1 := one_le_daysInMonth y (m + 1)
      omega
    · unfold ValidDate
      dsimp only
      have h1 := one_le_daysInMonth (y + 1) 1
      omega

theorem nextDate_year {d : PyDate} : (nextDate d).year ≤ d.year + 1 := by
  obtain ⟨y, m, dd⟩ := d
  unfold nextDate
  dsimp only
  split
  · show y ≤ y + 1
    omega
  · split
    · show y ≤ y + 1
      omega
    · show y + 1 ≤ y + 1
      omega

theorem daysBeforeMonth_twelve (y : Nat) :
    daysBeforeMonth y 12 = if isLeap y then 335 else 334 := by
  have h12 : daysBeforeMonth y 12 =
      daysInMonth y 1 + daysInMonth y 2 + daysInMonth y 3 + daysInMonth y 4 +
      daysInMonth y 5 + daysInMonth y 6 + daysInMonth y 7 + daysInMonth y 8 +
      daysInMonth y 9 + daysInMonth y 10 + daysInMonth y 11 := by
    show daysBeforeMonth y (10 + 2) = _
    rw [daysBeforeMonth]
    show daysBeforeMonth y (9 + 2) + _ = _
    rw [daysBeforeMonth]
    show daysBeforeMonth y (8 + 2) + _ + _ = _
    rw [daysBeforeMonth]
    show daysBeforeMonth y (7 + 2) + _ + _ + _ = _
    rw [daysBeforeMonth]
    show daysBeforeMonth y (6 + 2) + _ + _ + _ + _ = _
    rw [daysBeforeMonth]
    show daysBeforeMonth y (5 + 2) + _ + _ + _ + _ + _ = _
    rw [daysBeforeMonth]
    show daysBeforeMonth y (4 + 2) + _ + _ + _ + _ + _ + _ = _
    rw [daysBeforeMonth]
    show daysBeforeMonth y (3 + 2) + _ + _ + _ + _ + _ + _ + _ = _
    rw [daysBeforeMonth]
    show daysBeforeMonth y (2 + 2) + _ + _ + _ + _ + _ + _ + _ + _ = _
    rw [daysBeforeMonth]
    show daysBeforeMonth y (1 + 2) + _ + _ + _ + _ + _ + _ + _ + _ + _ = _
    rw [daysBeforeMonth]
    show daysBeforeMonth y (0 + 2) + _ + _ + _ + _ + _ + _ + _ + _ + _ + _ = _
    rw [daysBeforeMonth]
    have h1 : daysBeforeMonth y (0 + 1) = 0 := rfl
    rw [h1]
    have e1 : daysInMonth y (0 + 1) = daysInMonth y 1 := rfl
    have e2 : daysInMonth y (1 + 1) = daysInMonth y 2 := rfl
    have e3 : daysInMonth y (2 + 1) = daysInMonth y 3 := rfl
    have e4 : daysInMonth y (3 + 1) = daysInMonth y 4 := rfl
    have e5 : daysInMonth y (4 + 1) = daysInMonth y 5 := rfl
    have e6 : daysInMonth y (5 + 1) = daysInMonth y 6 := rfl
    have e7 : daysInMonth y (6 + 1) = daysInMonth y 7 := rfl
    have e8 : daysInMonth y (7 + 1) = daysInMonth y 8 := rfl
    have e9 : daysInMonth y (8 + 1) = daysInMonth y 9 := rfl
    have e10 : daysInMonth y (9 + 1) = daysInMonth y 10 := rfl
    have e11 : daysInMonth y (10 + 1) = daysInMonth y 11 := rfl
    rw [e1, e2, e3, e4, e5, e6, e7, e8, e9, e10, e11]
    omega
  rw [h12]
  have hm2 : daysInMonth y 2 = if isLeap y then 29 else 28 := by
    unfold daysInMonth
    norm_num
  have hrest : daysInMonth y 1 = 31 ∧ daysInMonth y 3 = 31 ∧ daysInMonth y 4 = 30 ∧
      daysInMonth y 5 = 31 ∧ daysInMonth y 6 = 30 ∧ daysInMonth y 7 = 31 ∧
      daysInMonth y 8 = 31 ∧ daysInMonth y 9 = 30 ∧ daysInMonth y 10 = 31 ∧
      daysInMonth y 11 = 30 := by
    unfold daysInMonth
    norm_num
  obtain ⟨r1, r3, r4, r5, r6, r7, r8, r9, r10, r11⟩ := hrest
  rw [hm2, r1, r3, r4, r5, r6, r7, r8, r9, r10, r11]
  rcases isLeap y <;> simp

theorem toOrdinal_nextDate {d : PyDate} (h : ValidDate d) :
    toOrdinal (nextDate d) = toOrdinal d + 1 := by
  obtain ⟨y, m, dd⟩ := d
  obtain ⟨hy, hm1, hm2, hd1, hd2⟩ := h
  dsimp only at hy hm1 hm2 hd1 hd2
  unfold nextDate
  dsimp only
  split
  · rename_i hlt
    unfold toOrdinal
    dsimp only
    omega
  · rename_i hlt
    split
    · rename_i hmlt
      unfold toOrdinal
      dsimp only
      obtain ⟨k, rfl⟩ : ∃ k, m = k + 1 := ⟨m - 1, by omega⟩
      rw [show k + 1 + 1 = k + 2 from rfl, daysBeforeMonth]
      omega
    · rename_i hmlt
      have hm12 : m = 12 := by omega
      subst hm12
      have hdim : daysInMonth y 12 = 31 := by
        unfold daysInMonth
        norm_num
      rw [hdim] at hd2 hlt
      have hdd : dd = 31 := by omega
      subst hdd
      unfold toOrdinal
      dsimp only
      rw [daysBeforeMonth_twelve]
      rw [show daysBeforeMonth (y + 1) 1 = 0 from rfl]
      rw [show y + 1 - 1 = y from by omega]
      rcases hL : isLeap y with _ | _
      · have hleap : ¬ ((y % 4 = 0 ∧ y % 100 ≠ 0) ∨ y % 400 = 0) := by
          unfold isLeap at hL
          simp only [Bool.or_eq_false_iff, Bool.and_eq_false_iff, beq_eq_false_iff_ne,
            bne_eq_false_iff_eq, ne_eq] at hL
          tauto
        rw [if_neg (by decide)]
        have h4 := Nat.succ_div (y - 1) 4
        have h100 := Nat.succ_div (y - 1) 100
        have h400 := Nat.succ_div (y - 1) 400
        rw [show y - 1 + 1 = y from by omega] at h4 h100 h400
        rw [h4, h100, h400]
        have d1 : (y - 1) / 100 ≤ (y - 1) / 4 := Nat.div_le_div_left (by norm_num) (by norm_num)
        have d2 : (y - 1) / 4 ≤ y - 1 := Nat.div_le_self _ _
        clear h4 h100 h400 hL
        split_ifs <;> omega
      · have hleap : (y % 4 = 0 ∧ y % 100 ≠ 0) ∨ y % 400 = 0 := by
          unfold isLeap at hL
          simp only [Bool.or_eq_true, Bool.and_eq_true, beq_iff_eq, bne_iff_ne, ne_eq] at hL
          tauto
        rw [if_pos rfl]
        have h4 := Nat.succ_div (y - 1) 4
        have h100 := Nat.succ_div (y - 1) 100
        have h400 := Nat.succ_div (y - 1) 400
        rw [show y - 1 + 1 = y from by omega] at h4 h100 h400
        rw [h4, h100, h400]
        have d1 : (y - 1) / 100 ≤ (y - 1) / 4 := Nat.div_le_div_left (by norm_num) (by norm_num)
        have d2 : (y - 1) / 4 ≤ y - 1 := Nat.div_le_self _ _
        clear h4 h100 h400 hL
        split_ifs <;> omega

theorem validDate_addDaysDate {d : PyDate} (h : ValidDate d) (n : Nat) :
    ValidDate (addDaysDate d n) := by
  induction n with
  | zero => exact h
  | succ k ih => exact validDate_nextDate ih

theorem toOrdinal_addDaysDate {d : PyDate} (h : ValidDate d) (n : Nat) :
    toOrdinal (addDaysDate d n) = toOrdinal d + n := by
  induction n with
  | zero => rfl
  | succ k ih =>
    show toOrdinal (nextDate (addDaysDate d k)) = _
    rw [toOrdinal_nextDate (validDate_addDaysDate h k), ih]
    omega

theorem addDaysDate_year {d : PyDate} (n : Nat) :
    (addDaysDate d n).year ≤ d.year + n := by
  induction n with
  | zero =>
    show d.year ≤ d.year + 0
    omega
  | succ k ih =>
    calc (addDaysDate d (k + 1)).year = (nextDate (addDaysDate d k)).year := rfl
    _ ≤ (addDaysDate d k).year + 1 := nextDate_year
    _ ≤ d.year + (k + 1) := by omega

theorem nextDate_year_ge (d : PyDate) : d.year ≤ (nextDate d).year := by
  obtain ⟨y, m, dd⟩ := d
  unfold nextDate
  dsimp only
  split
  · show y ≤ y
    omega
  · split
    · show y ≤ y
      omega
    · show y ≤ y + 1
      omega

theorem addDaysDate_add (d : PyDate) (a b : Nat) :
    addDaysDate d (a + b) = addDaysDate (addDaysDate d a) b := by
  induction b with
  | zero => rfl
  | succ k ih =>
    show nextDate (addDaysDate d (a + k)) = nextDate (addDaysDate (addDaysDate d a) k)
    rw [ih]

theorem year_le_addDaysDate (d : PyDate) (n : Nat) : d.year ≤ (addDaysDate d n).year := by
  induction n with
  | zero => exact Nat.le_refl _
  | succ k ih => exact le_trans ih (nextDate_year_ge (addDaysDate d k))

theorem addDaysDate_year_mono (d : PyDate) {a b : Nat} (h : a ≤ b) :
    (addDaysDate d a).year ≤ (addDaysDate d b).year := by
  obtain ⟨m, rfl⟩ : ∃ m, b = a + m := ⟨b - a, by omega⟩
  rw [addDaysDate_add]
  exact year_le_addDaysDate _ _

theorem addDaysDTChecked_eq_some {dt : PyDateTime} {j : Nat} (hj : j ≤ 7)
    (h9 : (addDaysDate dt.date 7).year ≤ 9999) :
    addDaysDTChecked dt j = some (addDaysDT dt j) := by
  have hle : (addDaysDate dt.date j).year ≤ 9999 :=
    le_trans (addDaysDate_year_mono dt.date hj) h9
  unfold addDaysDTChecked
  rw [if_pos hle]

theorem weekday_addDaysDate {d : PyDate} (h : ValidDate d) (n : Nat) :
    weekday (addDaysDate d n) = (weekday d + n) % 7 := by
  unfold weekday
  rw [toOrdinal_addDaysDate h n]
  omega

theorem weekday_lt_7 (d : PyDate) : weekday d < 7 := Nat.mod_lt _ (by norm_num)

/-- Arithmetic contract of the `days_ahead` computation of lines 127-129:
for a target and current weekday the chosen natural offset is in `1..7`,
lands on the target weekday, equals the spec's
`(target - current + 7) mod 7` with `0` replaced by `7`, and no smaller
positive offset lands on the target. -/
theorem daysAhead_spec :
    ∀ t : Nat, t < 7 → ∀ c : Nat, c < 7 →
      (1 ≤ (if (t : Int) - (c : Int) ≤ 0 then (t : Int) - (c : Int) + 7
            else (t : Int) - (c : Int)).toNat) ∧
      ((if (t : Int) - (c : Int) ≤ 0 then (t : Int) - (c : Int) + 7
            else (t : Int) - (c : Int)).toNat ≤ 7) ∧
      ((c + (if (t : Int) - (c : Int) ≤ 0 then (t : Int) - (c : Int) + 7
            else (t : Int) - (c : Int)).toNat) % 7 = t) ∧
      ((if (t : Int) - (c : Int) ≤ 0 then (t : Int) - (c : Int) + 7
            else (t : Int) - (c : Int)).toNat =
        if (t + 7 - c) % 7 = 0 then 7 else (t + 7 - c) % 7) ∧
      (∀ j < (if (t : Int) - (c : Int) ≤ 0 then (t : Int) - (c : Int) + 7
            else (t : Int) - (c : Int)).toNat, 1 ≤ j → (c + j) % 7 ≠ t) := by
  decide

/-! ### Branch behaviour of the resolver -/

theorem resolveDt_today {s : String} (h : pyLowerStrip s = "today") (now : PyDateTime) :
    resolveDt s now = some (replaceTime now 0 0 0) := by
  unfold resolveDt
  rw [h, if_pos rfl]

theorem resolveDt_tomorrow {s : String} (h : pyLowerStrip s = "tomorrow") (now : PyDateTime) :
    resolveDt s now = some (replaceTime (addDaysDT now 1) 0 0 0) := by
  unfold resolveDt
  rw [h, if_neg (by decide), if_pos rfl]

theorem resolveDt_next {s : String} (i : Fin 7)
    (h : pyLowerStrip s = "next " ++ dayNameS i) (now : PyDateTime) :
    resolveDt s now = some (nextWeekdayDT i.val now) := by
  unfold resolveDt
  rw [h]
  fin_cases i <;>
    rw [if_neg (by decide), if_neg (by decide), if_pos (by decide)] <;> rfl

theorem resolveDt_literal {s : String} (h1 : pyLowerStrip s ≠ "today")
    (h2 : pyLowerStrip s ≠ "tomorrow")
    (h3 : pyStarts (pyLowerStrip s) "next " = false ∨
      days.findIdx? (fun d => d == pyStrip (pyDrop (pyLowerStrip s) 5)) = none)
    (now : PyDateTime) :
    resolveDt s now = date_parser_parse s := by
  unfold resolveDt
  rw [if_neg h1, if_neg h2]
  rcases h3 with h3 | h3
  · rw [if_neg (by simp [h3])]
  · by_cases hs : pyStarts (pyLowerStrip s) "next " = true
    · rw [if_pos hs, h3]
    · rw [if_neg hs]

theorem parse_datetime_none {s : String} {tz : Option Tz} {n : PyDateTime}
    (h : resolveDt s (awareNow tz n) = none) : parse_datetime s tz n = none := by
  unfold parse_datetime
  rw [h]

theorem parse_datetime_some {s : String} {tz : Option Tz} {n dt : PyDateTime}
    (h : resolveDt s (awareNow tz n) = some dt) :
    parse_datetime s tz n =
      if dt.hour = 0 ∧ dt.minute = 0 ∧ dt.second = 0 ∧ hasColon s = false then
        some (.date (strftimeDate dt.date))
      else if dt.tzinfo = none then
        some (.dateTime (isoformat { dt with tzinfo := some (tz.getD pytzUTC).offset })
          (tz.getD pytzUTC).name)
      else
        some (.dateTime (isoformat dt) (tz.getD pytzUTC).name) := by
  unfold parse_datetime
  rw [h]

theorem findIdx?_eq_none_of_not_mem {x : String} {l : List String} (h : x ∉ l) :
    l.findIdx? (fun d => d == x) = none := by
  induction l with
  | nil => rfl
  | cons a t ih =>
    have ha : (a == x) = false := by
      simp only [beq_eq_false_iff_ne, ne_eq]
      intro he
      exact h (he ▸ List.mem_cons_self a t)
    have ht := ih (fun hm => h (List.mem_cons_of_mem a hm))
    simp [List.findIdx?_cons, ha, ht]

/-! ### Parser round-trips and soundness -/

theorem parse_strftimeDate {d : PyDate} (hv : ValidDate d) (hy : d.year ≤ 9999) :
    date_parser_parse (strftimeDate d) = some ⟨d, 0, 0, 0, none⟩ := by
  obtain ⟨y, m, dd⟩ := d
  obtain ⟨h1, h2, h3, h4, h5⟩ := hv
  dsimp only at h1 h2 h3 h4 h5 hy
  have hdm := daysInMonth_le_31 y m
  have hL : (strftimeDate ⟨y, m, dd⟩).toList =
      [digitChar10 (y / 1000), digitChar10 (y / 100), digitChar10 (y / 10), digitChar10 y,
       '-', digitChar10 (m / 10), digitChar10 m, '-', digitChar10 (dd / 10), digitChar10 dd] := by
    simp [strftimeDate, strftimeDateL, pad4L, pad2L]
  unfold date_parser_parse
  rw [hL]
  dsimp only
  rw [if_pos ⟨rfl, rfl⟩]
  unfold parseDateChars
  rw [parse4_pad4 y (by omega), parse2_pad2 m (by omega), parse2_pad2 dd (by omega)]
  simp only [Option.bind_eq_bind, Option.some_bind]
  unfold mkDate?
  rw [if_pos ⟨h1, h2, h3, h4, h5⟩]
  rfl

theorem parse_isoformat_naive {d : PyDate} {hh mi se : Nat} (hv : ValidDate d)
    (hy : d.year ≤ 9999) (hhh : hh < 24) (hmi : mi < 60) (hse : se < 60) :
    date_parser_parse (isoformat ⟨d, hh, mi, se, none⟩) = some ⟨d, hh, mi, se, none⟩ := by
  obtain ⟨y, m, dd⟩ := d
  obtain ⟨h1, h2, h3, h4, h5⟩ := hv
  dsimp only at h1 h2 h3 h4 h5 hy
  have hdm := daysInMonth_le_31 y m
  have hL : (isoformat ⟨⟨y, m, dd⟩, hh, mi, se, none⟩).toList =
      [digitChar10 (y / 1000), digitChar10 (y / 100), digitChar10 (y / 10), digitChar10 y,
       '-', digitChar10 (m / 10), digitChar10 m, '-', digitChar10 (dd / 10), digitChar10 dd,
       'T', digitChar10 (hh / 10), digitChar10 hh, ':', digitChar10 (mi / 10), digitChar10 mi,
       ':', digitChar10 (se / 10), digitChar10 se] := by
    simp [isoformat, isoformatL, strftimeDateL, pad4L, pad2L]
  unfold date_parser_parse
  rw [hL]
  dsimp only
  rw [if_pos ⟨rfl, rfl, rfl, rfl, rfl⟩]
  unfold parseDateChars
  rw [parse4_pad4 y (by omega), parse2_pad2 m (by omega), parse2_pad2 dd (by omega),
    parse2_pad2 hh (by omega), parse2_pad2 mi (by omega), parse2_pad2 se (by omega)]
  simp only [Option.bind_eq_bind, Option.some_bind]
  unfold mkDate?
  rw [if_pos ⟨h1, h2, h3, h4, h5⟩]
  simp only [Option.some_bind]
  rw [if_pos ⟨hhh, hmi, hse⟩]
  rfl

theorem parse_isoformat_aware {d : PyDate} {hh mi se : Nat} {off : Int} (hv : ValidDate d)
    (hy : d.year ≤ 9999) (hhh : hh < 24) (hmi : mi < 60) (hse : se < 60)
    (hoff : off.natAbs < 1440) :
    date_parser_parse (isoformat ⟨d, hh, mi, se, some off⟩) = some ⟨d, hh, mi, se, some off⟩ := by
  obtain ⟨y, m, dd⟩ := d
  obtain ⟨h1, h2, h3, h4, h5⟩ := hv
  dsimp only at h1 h2 h3 h4 h5 hy
  have hdm := daysInMonth_le_31 y m
  have hL : (isoformat ⟨⟨y, m, dd⟩, hh, mi, se, some off⟩).toList =
      [digitChar10 (y / 1000), digitChar10 (y / 100), digitChar10 (y / 10), digitChar10 y,
       '-', digitChar10 (m / 10), digitChar10 m, '-', digitChar10 (dd / 10), digitChar10 dd,
       'T', digitChar10 (hh / 10), digitChar10 hh, ':', digitChar10 (mi / 10), digitChar10 mi,
       ':', digitChar10 (se / 10), digitChar10 se,
       (if off < 0 then '-' else '+'), digitChar10 (off.natAbs / 60 / 10),
       digitChar10 (off.natAbs / 60), ':', digitChar10 (off.natAbs % 60 / 10),
       digitChar10 (off.natAbs % 60)] := by
    simp [isoformat, isoformatL, strftimeDateL, offsetL, pad4L, pad2L]
  unfold date_parser_parse
  rw [hL]
  dsimp only
  rw [if_pos ⟨rfl, rfl, rfl, rfl, rfl, rfl⟩]
  unfold parseDateChars
  rw [parse4_pad4 y (by omega), parse2_pad2 m (by omega), parse2_pad2 dd (by omega),
    parse2_pad2 hh (by omega), parse2_pad2 mi (by omega), parse2_pad2 se (by omega)]
  unfold parseOffset?
  rw [parse2_pad2 (off.natAbs / 60) (by omega), parse2_pad2 (off.natAbs % 60) (by omega)]
  simp only [Option.bind_eq_bind, Option.some_bind]
  unfold mkDate?
  rw [if_pos ⟨h1, h2, h3, h4, h5⟩]
  simp only [Option.some_bind]
  rw [if_pos ⟨by omega, by omega⟩]
  by_cases hneg : off < 0
  · rw [if_pos hneg]
    rw [if_neg (by decide), if_pos rfl]
    simp only [Option.pure_def, Option.some_bind]
    rw [if_pos ⟨hhh, hmi, hse⟩]
    have he : -(((off.natAbs / 60 * 60 + off.natAbs % 60 : Nat) : Int)) = off := by omega
    rw [he]
  · rw [if_neg hneg]
    rw [if_pos rfl]
    simp only [Option.pure_def, Option.some_bind]
    rw [if_pos ⟨hhh, hmi, hse⟩]
    have he : (((off.natAbs / 60 * 60 + off.natAbs % 60 : Nat) : Int)) = off := by omega
    rw [he]

theorem parse2_lt {a b : Char} {v : Nat} (h : parse2 a b = some v) : v < 100 := by
  unfold parse2 at h
  simp only [Option.bind_eq_bind, Option.bind_eq_some, Option.pure_def,
    Option.some.injEq] at h
  obtain ⟨x, hx, y, hy, rfl⟩ := h
  have := digitVal?_lt _ _ hx
  have := digitVal?_lt _ _ hy
  omega

theorem parse4_lt {a b c d : Char} {v : Nat} (h : parse4 a b c d = some v) : v < 10000 := by
  unfold parse4 at h
  simp only [Option.bind_eq_bind, Option.bind_eq_some, Option.pure_def,
    Option.some.injEq] at h
  obtain ⟨x, hx, y, hy, rfl⟩ := h
  have := parse2_lt hx
  have := parse2_lt hy
  omega

theorem parseDateChars_sound {a b c d e f g h : Char} {dte : PyDate}
    (hp : parseDateChars a b c d e f g h = some dte) :
    ValidDate dte ∧ dte.year ≤ 9999 := by
  unfold parseDateChars at hp
  simp only [Option.bind_eq_bind, Option.bind_eq_some] at hp
  obtain ⟨y, hy, m, hm, dd, hdd, hmk⟩ := hp
  have hy4 := parse4_lt hy
  unfold mkDate? at hmk
  split at hmk
  · rename_i hc
    cases hmk
    refine ⟨hc, ?_⟩
    show y ≤ 9999
    omega
  · exact absurd hmk (by simp)

theorem parseOffset?_sound {sg o1 o2 o3 o4 : Char} {off : Int}
    (h : parseOffset? sg o1 o2 o3 o4 = some off) : off.natAbs < 1440 := by
  unfold parseOffset? at h
  simp only [Option.bind_eq_bind, Option.bind_eq_some] at h
  obtain ⟨oh, hoh, om, hom, hrest⟩ := h
  split at hrest
  · rename_i hc
    split at hrest
    · simp only [Option.pure_def, Option.some.injEq] at hrest
      omega
    · split at hrest
      · simp only [Option.pure_def, Option.some.injEq] at hrest
        omega
      · exact absurd hrest (by simp)
  · exact absurd hrest (by simp)

theorem date_parser_parse_sound {s : String} {dt : PyDateTime}
    (h : date_parser_parse s = some dt) :
    ValidDate dt.date ∧ dt.date.year ≤ 9999 ∧ dt.hour < 24 ∧ dt.minute < 60 ∧
      dt.second < 60 ∧ (∀ o, dt.tzinfo = some o → o.natAbs < 1440) ∧
      (hasColon s = false → dt.hour = 0 ∧ dt.minute = 0 ∧ dt.second = 0 ∧ dt.tzinfo = none) := by
  unfold date_parser_parse at h
  split at h
  · rename_i a b c d s1 e f s2 g hh heq
    split at h
    · rename_i hsep
      simp only [Option.map_eq_some'] at h
      obtain ⟨dte, hp, rfl⟩ := h
      obtain ⟨hv, hy⟩ := parseDateChars_sound hp
      exact ⟨hv, hy, by norm_num, by norm_num, by norm_num, by simp,
        fun _ => ⟨rfl, rfl, rfl, rfl⟩⟩
    · exact absurd h (by simp)
  · rename_i a b c d s1 e f s2 g hh t1 i j c1 k l c2 m n heq
    split at h
    · rename_i hsep
      simp only [Option.bind_eq_bind, Option.bind_eq_some] at h
      obtain ⟨dte, hp, hhv, hhp, miv, hmip, sev, hsep2, hifs⟩ := h
      split at hifs
      · rename_i hrange
        simp only [Option.pure_def, Option.some.injEq] at hifs
        subst hifs
        obtain ⟨hv, hy⟩ := parseDateChars_sound hp
        have hcol : hasColon s = true := by
          have hmem : ':' ∈ s.toList := by
            rw [heq]
            obtain ⟨-, -, -, rfl, -⟩ := hsep
            simp
          unfold hasColon
          exact List.elem_iff.mpr hmem
        exact ⟨hv, hy, hrange.1, hrange.2.1, hrange.2.2, by simp,
          fun hcf => absurd hcol (by simp [hcf])⟩
      · exact absurd hifs (by simp)
    · exact absurd h (by simp)
  · rename_i a b c d s1 e f s2 g hh t1 i j c1 k l c2 m n sg o1 o2 c3 o3 o4 heq
    split at h
    · rename_i hsep
      simp only [Option.bind_eq_bind, Option.bind_eq_some] at h
      obtain ⟨dte, hp, hhv, hhp, miv, hmip, sev, hsep2, off, hoffp, hifs⟩ := h
      split at hifs
      · rename_i hrange
        simp only [Option.pure_def, Option.some.injEq] at hifs
        subst hifs
        obtain ⟨hv, hy⟩ := parseDateChars_sound hp
        have hoffb := parseOffset?_sound hoffp
        have hcol : hasColon s = true := by
          have hmem : ':' ∈ s.toList := by
            rw [heq]
            obtain ⟨-, -, -, rfl, -⟩ := hsep
            simp
          unfold hasColon
          exact List.elem_iff.mpr hmem
        refine ⟨hv, hy, hrange.1, hrange.2.1, hrange.2.2, ?_,
          fun hcf => absurd hcol (by simp [hcf])⟩
        intro o ho
        simp only [Option.some.injEq] at ho
        exact ho ▸ hoffb
      · exact absurd hifs (by simp)
    · exact absurd h (by simp)
  · exact absurd h (by simp)

/-! ### Printed strings are not keywords -/

theorem strftime_expand (d : PyDate) : strftimeDateL d =
    digitChar10 (d.year / 1000) :: [digitChar10 (d.year / 100), digitChar10 (d.year / 10),
      digitChar10 d.year, '-', digitChar10 (d.month / 10), digitChar10 d.month, '-',
      digitChar10 (d.day / 10), digitChar10 d.day] := by
  simp [strftimeDateL, pad4L, pad2L]

theorem isoformat_expand_naive (d : PyDate) (hh mi se : Nat) :
    isoformatL ⟨d, hh, mi, se, none⟩ =
    digitChar10 (d.year / 1000) :: [digitChar10 (d.year / 100), digitChar10 (d.year / 10),
      digitChar10 d.year, '-', digitChar10 (d.month / 10), digitChar10 d.month, '-',
      digitChar10 (d.day / 10), digitChar10 d.day,
      'T', digitChar10 (hh / 10), digitChar10 hh, ':', digitChar10 (mi / 10), digitChar10 mi,
      ':', digitChar10 (se / 10), digitChar10 se] := by
  simp [isoformatL, strftimeDateL, pad4L, pad2L]

theorem isoformat_expand_aware (d : PyDate) (hh mi se : Nat) (off : Int) :
    isoformatL ⟨d, hh, mi, se, some off⟩ =
    digitChar10 (d.year / 1000) :: [digitChar10 (d.year / 100), digitChar10 (d.year / 10),
      digitChar10 d.year, '-', digitChar10 (d.month / 10), digitChar10 d.month, '-',
      digitChar10 (d.day / 10), digitChar10 d.day,
      'T', digitChar10 (hh / 10), digitChar10 hh, ':', digitChar10 (mi / 10), digitChar10 mi,
      ':', digitChar10 (se / 10), digitChar10 se,
      (if off < 0 then '-' else '+'), digitChar10 (off.natAbs / 60 / 10),
      digitChar10 (off.natAbs / 60), ':', digitChar10 (off.natAbs % 60 / 10),
      digitChar10 (off.natAbs % 60)] := by
  simp [isoformatL, strftimeDateL, offsetL, pad4L, pad2L]

theorem toLower_not_ws_digit (n : Nat) : (Char.toLower (digitChar10 n)).isWhitespace = false := by
  rw [digit_toLower]
  exact digit_not_ws n

theorem pyLowerStrip_eq_map {L : List Char}
    (hws : ∀ c ∈ L, (Char.toLower c).isWhitespace = false) :
    pyLowerStrip (String.mk L) = String.mk (L.map Char.toLower) := by
  unfold pyLowerStrip
  have h1 : (String.mk L).toList = L := rfl
  rw [h1]
  rw [trimChars_eq_self]
  intro c hc
  obtain ⟨a, ha, rfl⟩ := List.mem_map.mp hc
  exact hws a ha

theorem stringMk_ne_of_length {L : List Char} {t : String}
    (h : L.length ≠ t.toList.length) : String.mk L ≠ t := by
  intro he
  apply h
  rw [show t = String.mk t.toList from rfl] at he
  simpa using congrArg (fun s => s.toList.length) he

theorem pyStarts_next_false_of_digit (n : Nat) (r : List Char) :
    pyStarts (String.mk (digitChar10 n :: r)) "next " = false := by
  unfold pyStarts
  have h1 : (String.mk (digitChar10 n :: r)).toList = digitChar10 n :: r := rfl
  rw [h1]
  have h2 : ("next ".toList) = 'n' :: "ext ".toList := rfl
  rw [h2]
  have h3 : (('n' : Char) == digitChar10 n) = false :=
    beq_eq_false_iff_ne.mpr (fun he => digit_ne_n n he.symm)
  simp [List.isPrefixOf, h3]

theorem hasColon_strftime (d : PyDate) : hasColon (strftimeDate d) = false := by
  rw [Bool.eq_false_iff]
  intro hc
  unfold hasColon strftimeDate at hc
  have h1 : (String.mk (strftimeDateL d)).toList = strftimeDateL d := rfl
  rw [h1] at hc
  have hmem : ':' ∈ strftimeDateL d := List.elem_iff.mp hc
  rw [strftime_expand] at hmem
  simp only [List.mem_cons, List.not_mem_nil, or_false] at hmem
  rcases hmem with h | h | h | h | h | h | h | h | h | h <;>
    first
      | exact digit_ne_colon _ h.symm
      | exact absurd h (by decide)

theorem hasColon_isoformat_aware (d : PyDate) (hh mi se : Nat) (off : Int) :
    hasColon (isoformat ⟨d, hh, mi, se, some off⟩) = true := by
  unfold hasColon isoformat
  apply List.elem_iff.mpr
  have h1 : (String.mk (isoformatL ⟨d, hh, mi, se, some off⟩)).toList =
      isoformatL ⟨d, hh, mi, se, some off⟩ := rfl
  rw [h1, isoformat_expand_aware]
  simp

theorem nextWeekday_props {target : Nat} (ht : target < 7) (now : PyDateTime)
    (hv : ValidDate now.date) :
    ∃ k, 1 ≤ k ∧ k ≤ 7 ∧
      nextWeekdayDT target now = ⟨addDaysDate now.date k, 9, 0, 0, now.tzinfo⟩ ∧
      weekday (addDaysDate now.date k) = target ∧
      k = (if (target + 7 - weekday now.date) % 7 = 0 then 7
           else (target + 7 - weekday now.date) % 7) ∧
      (∀ j, j < k → 1 ≤ j → weekday (addDaysDate now.date j) ≠ target) := by
  have hc := weekday_lt_7 now.date
  obtain ⟨hk1, hk2, hk3, hk4, hk5⟩ := daysAhead_spec target ht (weekday now.date) hc
  refine ⟨_, hk1, hk2, rfl, ?_, hk4, ?_⟩
  · rw [weekday_addDaysDate hv]
    exact hk3
  · intro j hj h1j
    rw [weekday_addDaysDate hv]
    exact hk5 j hj h1j

theorem resolveDt_cases {s : String} {now dt : PyDateTime}
    (h : resolveDt s now = some dt) :
    (dt = replaceTime now 0 0 0 ∧ hasColon s = false) ∨
    (dt = replaceTime (addDaysDT now 1) 0 0 0 ∧ hasColon s = false) ∨
    (∃ target, target < 7 ∧ dt = nextWeekdayDT target now) ∨
    date_parser_parse s = some dt := by
  unfold resolveDt at h
  split at h
  · rename_i htoday
    left
    simp only [Option.some.injEq] at h
    exact ⟨h.symm, hasColon_false_of_lower htoday (by decide)⟩
  · rename_i htoday
    split at h
    · rename_i htom
      right
      left
      simp only [Option.some.injEq] at h
      exact ⟨h.symm, hasColon_false_of_lower htom (by decide)⟩
    · rename_i htom
      split at h
      · rename_i hnext
        right
        right
        split at h
        · rename_i target hfind
          left
          simp only [Option.some.injEq] at h
          refine ⟨target, ?_, h.symm⟩
          have := (List.findIdx?_eq_some_iff_findIdx_eq.mp hfind).1
          simpa [days] using this
        · right
          exact h
      · right
        right
        right
        exact h

theorem resolveDt_printed {L : List Char} (now : PyDateTime)
    (hws : ∀ c ∈ L, (Char.toLower c).isWhitespace = false)
    (hlen : L.length = 10 ∨ L.length = 19 ∨ L.length = 25)
    (hhead : ∃ n r, L = digitChar10 n :: r) :
    resolveDt (String.mk L) now = date_parser_parse (String.mk L) := by
  obtain ⟨n, r, rfl⟩ := hhead
  have hmap : (digitChar10 n :: r).map Char.toLower =
      digitChar10 n :: r.map Char.toLower := by
    simp [digit_toLower]
  have hlower := pyLowerStrip_eq_map hws
  simp only [List.length_cons] at hlen
  apply resolveDt_literal
  · rw [hlower, hmap]
    apply stringMk_ne_of_length
    have h5 : ("today".toList).length = 5 := rfl
    rw [h5]
    simp only [List.length_cons, List.length_map]
    omega
  · rw [hlower, hmap]
    apply stringMk_ne_of_length
    have h8 : ("tomorrow".toList).length = 8 := rfl
    rw [h8]
    simp only [List.length_cons, List.length_map]
    omega
  · left
    rw [hlower, hmap]
    exact pyStarts_next_false_of_digit n (r.map Char.toLower)

theorem parse_datetime_printed_date (D : PyDate) (hvD : ValidDate D) (hyD : D.year ≤ 9999)
    (tz : Option Tz) (n : PyDateTime) :
    parse_datetime (strftimeDate D) tz n = some (.date (strftimeDate D)) := by
  have hres : resolveDt (strftimeDate D) (awareNow tz n) =
      some (⟨D, 0, 0, 0, none⟩ : PyDateTime) := by
    rw [show strftimeDate D = String.mk (strftimeDateL D) from rfl]
    rw [resolveDt_printed (awareNow tz n) ?hws ?hlen ?hhead]
    case hws =>
      intro c hc
      rw [strftime_expand] at hc
      simp only [List.mem_cons, List.not_mem_nil, or_false] at hc
      rcases hc with rfl | rfl | rfl | rfl | rfl | rfl | rfl | rfl | rfl | rfl
      · exact toLower_not_ws_digit _
      · exact toLower_not_ws_digit _
      · exact toLower_not_ws_digit _
      · exact toLower_not_ws_digit _
      · decide
      · exact toLower_not_ws_digit _
      · exact toLower_not_ws_digit _
      · decide
      · exact toLower_not_ws_digit _
      · exact toLower_not_ws_digit _
    case hlen =>
      left
      rw [strftime_expand]
      rfl
    case hhead => exact ⟨D.year / 1000, _, strftime_expand D⟩
    exact parse_strftimeDate hvD hyD
  rw [parse_datetime_some hres]
  rw [if_pos ⟨rfl, rfl, rfl, hasColon_strftime D⟩]

theorem parse_datetime_printed_instant (D : PyDate) (hh mi se : Nat) (o : Int)
    (hvD : ValidDate D) (hyD : D.year ≤ 9999) (hhh : hh < 24) (hmi : mi < 60) (hse : se < 60)
    (ho : o.natAbs < 1440) (tz : Option Tz) (n : PyDateTime) :
    parse_datetime (isoformat ⟨D, hh, mi, se, some o⟩) tz n =
      some (.dateTime (isoformat ⟨D, hh, mi, se, some o⟩) (tz.getD pytzUTC).name) := by
  have hres : resolveDt (isoformat ⟨D, hh, mi, se, some o⟩) (awareNow tz n) =
      some (⟨D, hh, mi, se, some o⟩ : PyDateTime) := by
    rw [show isoformat ⟨D, hh, mi, se, some o⟩ =
      String.mk (isoformatL ⟨D, hh, mi, se, some o⟩) from rfl]
    rw [resolveDt_printed (awareNow tz n) ?hws ?hlen ?hhead]
    case hws =>
      intro c hc
      rw [isoformat_expand_aware] at hc
      simp only [List.mem_cons, List.not_mem_nil, or_false] at hc
      rcases hc with rfl | rfl | rfl | rfl | rfl | rfl | rfl | rfl | rfl | rfl | rfl | rfl |
        rfl | rfl | rfl | rfl | rfl | rfl | rfl | rfl | rfl | rfl | rfl | rfl | rfl
      · exact toLower_not_ws_digit _
      · exact toLower_not_ws_digit _
      · exact toLower_not_ws_digit _
      · exact toLower_not_ws_digit _
      · decide
      · exact toLower_not_ws_digit _
      · exact toLower_not_ws_digit _
      · decide
      · exact toLower_not_ws_digit _
      · exact toLower_not_ws_digit _
      · decide
      · exact toLower_not_ws_digit _
      · exact toLower_not_ws_digit _
      · decide
      · exact toLower_not_ws_digit _
      · exact toLower_not_ws_digit _
      · decide
      · exact toLower_not_ws_digit _
      · exact toLower_not_ws_digit _
      · split <;> decide
      · exact toLower_not_ws_digit _
      · exact toLower_not_ws_digit _
      · decide
      · exact toLower_not_ws_digit _
      · exact toLower_not_ws_digit _
    case hlen =>
      right
      right
      rw [isoformat_expand_aware]
      rfl
    case hhead => exact ⟨D.year / 1000, _, isoformat_expand_aware D hh mi se o⟩
    exact parse_isoformat_aware hvD hyD hhh hmi hse ho
  rw [parse_datetime_some hres]
  rw [if_neg (by simp [hasColon_isoformat_aware])]
  rw [if_neg (by simp)]

/-- C7: resolution is idempotent through its literal output: for every
input whose resolution succeeds (with a real-calendar `now` within the
`datetime` year range and a sane zone offset), feeding the literal ISO
text of the result (the `date` of an all-day value, the `dateTime` of an
instant) back into `parse_datetime` with the same timezone reproduces the
same `EventTimeSpec`. -/
theorem c7_resolution_idempotent :
    ∀ (s : String) (tz : Option Tz) (n : PyDateTime) (spec : GCalTime),
      ValidDate n.date → n.date.year ≤ 9990 →
      (tz.getD pytzUTC).offset.natAbs < 1440 →
      parse_datetime s tz n = some spec →
      parse_datetime (specText spec) tz n = some spec := by
  intro s tz n spec hv hy hoff h
  cases hres : resolveDt s (awareNow tz n) with
  | none =>
    rw [parse_datetime_none hres] at h
    exact absurd h (by simp)
  | some dt =>
    rw [parse_datetime_some hres] at h
    rcases resolveDt_cases hres with ⟨rfl, hcol⟩ | ⟨rfl, hcol⟩ | ⟨target, htlt, rfl⟩ | hlit
    · rw [if_pos ⟨rfl, rfl, rfl, hcol⟩] at h
      simp only [Option.some.injEq] at h
      subst h
      exact parse_datetime_printed_date n.date hv (by omega) tz n
    · rw [if_pos ⟨rfl, rfl, rfl, hcol⟩] at h
      simp only [Option.some.injEq] at h
      subst h
      have hv1 := validDate_addDaysDate hv 1
      have hy1 := addDaysDate_year (d := n.date) 1
      exact parse_datetime_printed_date (addDaysDate n.date 1) hv1 (by omega) tz n
    · obtain ⟨k, hk1, hk7, hkeq, hwd, hkfl, hmin⟩ :=
        nextWeekday_props htlt (awareNow tz n) (show ValidDate (awareNow tz n).date from hv)
      rw [hkeq] at h
      rw [if_neg (by simp)] at h
      rw [if_neg (by simp [awareNow])] at h
      simp only [Option.some.injEq] at h
      subst h
      have hv' := validDate_addDaysDate (show ValidDate (awareNow tz n).date from hv) k
      have hy' := addDaysDate_year (d := (awareNow tz n).date) k
      exact parse_datetime_printed_instant (addDaysDate (awareNow tz n).date k) 9 0 0
        ((tz.getD pytzUTC).offset) hv'
        (by have he : (awareNow tz n).date.year = n.date.year := rfl; omega)
        (by norm_num) (by norm_num) (by norm_num) hoff tz n
    · obtain ⟨hvd, hyd, hh24, hm60, hs60, hoffok, hcolimp⟩ := date_parser_parse_sound hlit
      obtain ⟨D, hh, mi, se, tzi⟩ := dt
      cases tzi with
      | none =>
        by_cases hcol : hasColon s = false
        · obtain ⟨hz1, hz2, hz3, -⟩ := hcolimp hcol
          have hz1' : hh = 0 := hz1
          have hz2' : mi = 0 := hz2
          have hz3' : se = 0 := hz3
          subst hz1'
          subst hz2'
          subst hz3'
          rw [if_pos ⟨rfl, rfl, rfl, hcol⟩] at h
          simp only [Option.some.injEq] at h
          subst h
          exact parse_datetime_printed_date D hvd hyd tz n
        · have hcolt : hasColon s = true := by
            revert hcol
            cases hasColon s <;> simp
          rw [if_neg (by simp [hcolt])] at h
          rw [if_pos rfl] at h
          simp only [Option.some.injEq] at h
          subst h
          exact parse_datetime_printed_instant D hh mi se ((tz.getD pytzUTC).offset)
            hvd hyd hh24 hm60 hs60 hoff tz n
      | some o =>
        have hcolt : hasColon s = true := by
          by_contra hc
          have h2 := (hcolimp (by revert hc; cases hasColon s <;> simp)).2.2.2
          simp at h2
        rw [if_neg (by simp [hcolt])] at h
        rw [if_neg (by simp)] at h
        simp only [Option.some.injEq] at h
        subst h
        exact parse_datetime_printed_instant D hh mi se o hvd hyd hh24 hm60 hs60
          (hoffok o rfl) tz n

theorem resolveDt_none {s : String} {now : PyDateTime} (h : resolveDt s now = none) :
    date_parser_parse s = none := by
  unfold resolveDt at h
  split at h
  · exact absurd h (by simp)
  · split at h
    · exact absurd h (by simp)
    · split at h
      · split at h
        · exact absurd h (by simp)
        · exact h
      · exact h

/-! ### The claims -/

/-- C5: for every `now` instant and timezone, `resolve("today", tz, now)`
yields an all-day value whose calendar date is `now`'s calendar date in
that timezone (the wall clock `now0` is the reading in the resolved
zone). -/
theorem c5_today (tz : Option Tz) (n : PyDateTime) :
    parse_datetime "today" tz n = some (.date (strftimeDate n.date)) := by
  have hres := resolveDt_today (s := "today") (by decide) (awareNow tz n)
  rw [parse_datetime_some hres]
  rw [if_pos ⟨rfl, rfl, rfl, by decide⟩]
  rfl

/-- C8: the resolver is deterministic in its explicit inputs: two
invocations of `parse_datetime` with the same raw string, the same
timezone and the same `now` reading produce identical results (the
clock read `datetime.now(tz)` being the only ambient input, passed here
explicitly). -/
theorem c8_deterministic (s1 s2 : String) (tz1 tz2 : Option Tz) (n1 n2 : PyDateTime)
    (h1 : s1 = s2) (h2 : tz1 = tz2) (h3 : n1 = n2) :
    parse_datetime s1 tz1 n1 = parse_datetime s2 tz2 n2 := by
  rw [h1, h2, h3]

/-- Witness for C8 at a concrete invocation. -/
theorem c8_deterministic_witness :
    parse_datetime "today" none sampleNow = parse_datetime "today" none sampleNow :=
  c8_deterministic "today" "today" none none sampleNow sampleNow rfl rfl rfl

/-- C9: with no valid token (credentials absent or expired),
`get_calendar_service` prints the single `AUTH_REQUIRED` sentinel line
and the process exits with status 0. -/
theorem c9_auth_required (creds : Option Credentials)
    (h : creds = none ∨ ∃ c, creds = some c ∧ c.expired = true) :
    get_calendar_service creds = .authRequired authSentinel 0 := by
  rcases h with rfl | ⟨c, rfl, hc⟩
  · rfl
  · simp [get_calendar_service, hc]

/-- Witness for C9 with absent credentials. -/
theorem c9_auth_required_witness :
    get_calendar_service none = .authRequired authSentinel 0 :=
  c9_auth_required none (Or.inl rfl)

/-- C1: a successful resolution is classified all-day (`{date: ...}`)
iff the resolved time-of-day is exactly midnight and the original raw
string contains no colon; in particular `"2024-01-15"` resolves all-day
while `"2024-01-15T00:00:00"` resolves to an instant. -/
theorem c1_allday_iff :
    (∀ (s : String) (tz : Option Tz) (n : PyDateTime) (dt : PyDateTime),
      resolveDt s (awareNow tz n) = some dt →
      ((∃ d, parse_datetime s tz n = some (.date d)) ↔
        (dt.hour = 0 ∧ dt.minute = 0 ∧ dt.second = 0 ∧ hasColon s = false))) ∧
    (∀ (tz : Option Tz) (n : PyDateTime),
      parse_datetime "2024-01-15" tz n = some (.date "2024-01-15")) ∧
    (∀ (tz : Option Tz) (n : PyDateTime),
      ∃ x z, parse_datetime "2024-01-15T00:00:00" tz n = some (.dateTime x z)) := by
  refine ⟨?_, ?_, ?_⟩
  · intro s tz n dt h
    rw [parse_datetime_some h]
    by_cases hc : dt.hour = 0 ∧ dt.minute = 0 ∧ dt.second = 0 ∧ hasColon s = false
    · rw [if_pos hc]
      exact ⟨fun _ => hc, fun _ => ⟨_, rfl⟩⟩
    · rw [if_neg hc]
      constructor
      · rintro ⟨d, hd⟩
        exfalso
        split at hd <;> simp at hd
      · intro hcc
        exact absurd hcc hc
  · intro tz n
    have hres : resolveDt "2024-01-15" (awareNow tz n) =
        some (⟨⟨2024, 1, 15⟩, 0, 0, 0, none⟩ : PyDateTime) := by
      rw [resolveDt_literal (by decide) (by decide) (Or.inl (by decide))]
      decide
    rw [parse_datetime_some hres]
    rw [if_pos ⟨rfl, rfl, rfl, by decide⟩]
    decide
  · intro tz n
    have hres : resolveDt "2024-01-15T00:00:00" (awareNow tz n) =
        some (⟨⟨2024, 1, 15⟩, 0, 0, 0, none⟩ : PyDateTime) := by
      rw [resolveDt_literal (by decide) (by decide) (Or.inl (by decide))]
      decide
    rw [parse_datetime_some hres]
    rw [if_neg (by decide)]
    rw [if_pos rfl]
    exact ⟨_, _, rfl⟩

/-- Witness for C1: `"today"` resolves at the sample instant to an
all-day value, through the midnight-and-no-colon characterization. -/
theorem c1_allday_iff_witness :
    ∃ d, parse_datetime "today" none sampleNow = some (.date d) :=
  (c1_allday_iff.1 "today" none sampleNow ⟨⟨2024, 1, 15⟩, 0, 0, 0, some 0⟩
    (by decide)).mpr (by decide)

/-- Counterexample to C3 as stated: at the valid calendar date
9999-12-31 the `tomorrow` branch's `now + timedelta(days=1)` (line 119)
passes `datetime.max`, so the source raises `OverflowError` — a
keyword-path failure that is not a `DateParseError`. -/
theorem c3_counterexample :
    ValidDate ⟨9999, 12, 31⟩ ∧
    addDaysDTChecked ⟨⟨9999, 12, 31⟩, 10, 0, 0, some 0⟩ 1 = none := by
  decide

/-- C3 (amended): for every `now` lying at least seven days below the
`datetime` cap, `parse_datetime` is total and its only failure mode is
the `DateParseError` of the literal-parsing fallback on the original raw
string (e.g. `"not-a-date-xyz"` fails); on that domain the
relative-keyword paths never fail and none of the day shifts they can
compute overflows.  At the cap itself the keyword paths raise
`OverflowError` instead. -/
theorem c3_failure_modes :
    (∀ (tz : Option Tz) (n : PyDateTime), parse_datetime "not-a-date-xyz" tz n = none) ∧
    (∀ (s : String) (tz : Option Tz) (n : PyDateTime),
      (addDaysDate n.date 7).year ≤ 9999 →
      (pyLowerStrip s = "today" ∨ pyLowerStrip s = "tomorrow" ∨
        (∃ i : Fin 7, pyLowerStrip s = "next " ++ dayNameS i)) →
      (parse_datetime s tz n).isSome = true ∧
      (∀ j, j ≤ 7 →
        addDaysDTChecked (awareNow tz n) j = some (addDaysDT (awareNow tz n) j))) ∧
    (∀ (s : String) (tz : Option Tz) (n : PyDateTime),
      (addDaysDate n.date 7).year ≤ 9999 →
      parse_datetime s tz n = none → date_parser_parse s = none) := by
  refine ⟨?_, ?_, ?_⟩
  · intro tz n
    have hres : resolveDt "not-a-date-xyz" (awareNow tz n) = none := by
      rw [resolveDt_literal (by decide) (by decide) (Or.inl (by decide))]
      decide
    exact parse_datetime_none hres
  · intro s tz n h9 h
    refine ⟨?_, fun j hj => addDaysDTChecked_eq_some hj h9⟩
    rcases h with h | h | ⟨i, h⟩
    · rw [parse_datetime_some (resolveDt_today h (awareNow tz n))]
      split
      · rfl
      · split <;> rfl
    · rw [parse_datetime_some (resolveDt_tomorrow h (awareNow tz n))]
      split
      · rfl
      · split <;> rfl
    · rw [parse_datetime_some (resolveDt_next i h (awareNow tz n))]
      split
      · rfl
      · split <;> rfl
  · intro s tz n h9 h
    cases hres : resolveDt s (awareNow tz n) with
    | none => exact resolveDt_none hres
    | some dt =>
      rw [parse_datetime_some hres] at h
      exfalso
      split at h
      · simp at h
      · split at h <;> simp at h

/-- Witness for C3: the `"today"` keyword path succeeds concretely, with
every shift in the seven-day window representable. -/
theorem c3_failure_modes_witness :
    (parse_datetime "today" none sampleNow).isSome = true ∧
    (∀ j, j ≤ 7 → addDaysDTChecked (awareNow none sampleNow) j =
      some (addDaysDT (awareNow none sampleNow) j)) :=
  c3_failure_modes.2.1 "today" none sampleNow (by decide) (Or.inl (by decide))

/-- C4: every successful resolution is exactly one of the two variants:
an all-day `{date: ...}` or an instant `{dateTime: ..., timeZone: ...}`
whose serialized value is the isoformat of a timezone-aware datetime; if
the resolved value was naive, the configured default timezone (UTC when
unspecified) is the one attached. -/
theorem c4_variants :
    ∀ (s : String) (tz : Option Tz) (n : PyDateTime) (dt : PyDateTime),
      resolveDt s (awareNow tz n) = some dt →
      (∃ d, parse_datetime s tz n = some (.date d)) ∨
      (∃ x, parse_datetime s tz n = some (.dateTime x (tz.getD pytzUTC).name) ∧
        ∃ dta : PyDateTime, x = isoformat dta ∧ dta.tzinfo.isSome = true ∧
          (dt.tzinfo = none → dta.tzinfo = some (tz.getD pytzUTC).offset)) := by
  intro s tz n dt h
  rw [parse_datetime_some h]
  by_cases hc : dt.hour = 0 ∧ dt.minute = 0 ∧ dt.second = 0 ∧ hasColon s = false
  · rw [if_pos hc]
    exact Or.inl ⟨_, rfl⟩
  · rw [if_neg hc]
    by_cases ht : dt.tzinfo = none
    · rw [if_pos ht]
      exact Or.inr ⟨_, rfl,
        ⟨{ dt with tzinfo := some (tz.getD pytzUTC).offset }, rfl, rfl, fun _ => rfl⟩⟩
    · rw [if_neg ht]
      refine Or.inr ⟨_, rfl, ⟨dt, rfl, ?_, fun hnone => absurd hnone ht⟩⟩
      cases hdt : dt.tzinfo with
      | none => exact absurd hdt ht
      | some o => simp [hdt]

/-- Witness for C4 on a concrete timed literal. -/
theorem c4_variants_witness :
    (∃ d, parse_datetime "2024-01-15T10:00:00" none sampleNow = some (.date d)) ∨
    (∃ x, parse_datetime "2024-01-15T10:00:00" none sampleNow =
        some (.dateTime x ((none : Option Tz).getD pytzUTC).name) ∧
      ∃ dta : PyDateTime, x = isoformat dta ∧ dta.tzinfo.isSome = true ∧
        ((⟨⟨2024, 1, 15⟩, 10, 0, 0, none⟩ : PyDateTime).tzinfo = none →
          dta.tzinfo = some ((none : Option Tz).getD pytzUTC).offset)) :=
  c4_variants "2024-01-15T10:00:00" none sampleNow ⟨⟨2024, 1, 15⟩, 10, 0, 0, none⟩ (by decide)

/-- C6: an input of the form `next <X>` with `<X>` not a canonical
weekday name is not an error at the keyword stage: resolution falls
through to literal parsing of the original raw string, which may itself
fail (as `"next xyzday"` does). -/
theorem c6_next_fallthrough :
    (∀ (s : String) (tz : Option Tz) (n : PyDateTime),
      pyStarts (pyLowerStrip s) "next " = true →
      pyStrip (pyDrop (pyLowerStrip s) 5) ∉ days →
      resolveDt s (awareNow tz n) = date_parser_parse s) ∧
    (∀ (tz : Option Tz) (n : PyDateTime), parse_datetime "next xyzday" tz n = none) := by
  constructor
  · intro s tz n hstart hmem
    have h1 : pyLowerStrip s ≠ "today" := by
      intro he
      rw [he] at hstart
      exact absurd hstart (by decide)
    have h2 : pyLowerStrip s ≠ "tomorrow" := by
      intro he
      rw [he] at hstart
      exact absurd hstart (by decide)
    exact resolveDt_literal h1 h2 (Or.inr (findIdx?_eq_none_of_not_mem hmem)) _
  · intro tz n
    have hres : resolveDt "next xyzday" (awareNow tz n) = none := by
      rw [resolveDt_literal (by decide) (by decide) (Or.inr (by decide))]
      decide
    exact parse_datetime_none hres

/-- Witness for C6: `"next mon"` (an abbreviation, not a canonical name)
falls through to the literal parser. -/
theorem c6_next_fallthrough_witness :
    resolveDt "next mon" (awareNow none sampleNow) = date_parser_parse "next mon" :=
  c6_next_fallthrough.1 "next mon" none sampleNow (by decide) (by decide)

/-- Witness for C7: refeeding the all-day output of `"today"` at the
sample instant reproduces it. -/
theorem c7_resolution_idempotent_witness :
    parse_datetime "2024-01-15" none sampleNow = some (.date "2024-01-15") :=
  c7_resolution_idempotent "today" none sampleNow (.date "2024-01-15")
    (by decide) (by decide) (by decide) (by decide)

/-- Counterexample to C2 as stated: at the valid calendar date
9999-12-28 the seven-day shift the `next <weekday>` branch computes when
the target weekday equals today's (lines 128-130) passes `datetime.max`,
so the source raises `OverflowError` instead of yielding a date. -/
theorem c2_counterexample :
    ValidDate ⟨9999, 12, 28⟩ ∧
    addDaysDTChecked ⟨⟨9999, 12, 28⟩, 10, 0, 0, some 0⟩ 7 = none := by
  decide

/-- C2 (amended): for every canonical weekday name W, every timezone and
every real calendar `now` lying at least seven days below the `datetime`
cap (so the computed shift cannot overflow), `resolve("next " + W)` lands
strictly after `now`'s date on a date whose weekday is W, at offset
`(target - current + 7) mod 7` with zero replaced by 7, with the time of
day set to 09:00 local, the shift staying within the representable range,
and the result is an instant in the resolved zone; at the cap the source
raises `OverflowError` instead. -/
theorem c2_next_weekday :
    ∀ (i : Fin 7) (tz : Option Tz) (n : PyDateTime),
      ValidDate n.date →
      (addDaysDate n.date 7).year ≤ 9999 →
      ∃ dt k,
        resolveDt ("next " ++ dayNameS i) (awareNow tz n) = some dt ∧
        k = (if (i.val + 7 - weekday n.date) % 7 = 0 then 7
             else (i.val + 7 - weekday n.date) % 7) ∧
        dt.date = addDaysDate n.date k ∧
        toOrdinal n.date < toOrdinal dt.date ∧
        weekday dt.date = i.val ∧
        dt.hour = 9 ∧ dt.minute = 0 ∧ dt.second = 0 ∧
        addDaysDTChecked (awareNow tz n) k = some (addDaysDT (awareNow tz n) k) ∧
        (∃ x, parse_datetime ("next " ++ dayNameS i) tz n =
          some (.dateTime x (tz.getD pytzUTC).name)) := by
  intro i tz n hv h9
  have hlow : pyLowerStrip ("next " ++ dayNameS i) = "next " ++ dayNameS i := by
    fin_cases i <;> decide
  have hres := resolveDt_next i hlow (awareNow tz n)
  obtain ⟨k, hk1, hk7, hkeq, hwd, hkfl, hmin⟩ :=
    nextWeekday_props i.isLt (awareNow tz n) (show ValidDate (awareNow tz n).date from hv)
  refine ⟨nextWeekdayDT i.val (awareNow tz n), k, hres, hkfl, ?_, ?_, ?_, ?_, ?_, ?_, ?_, ?_⟩
  · rw [hkeq]
    rfl
  · rw [hkeq]
    show toOrdinal n.date < toOrdinal (addDaysDate n.date k)
    rw [toOrdinal_addDaysDate hv k]
    omega
  · rw [hkeq]
    exact hwd
  · rw [hkeq]
  · rw [hkeq]
  · rw [hkeq]
  · exact addDaysDTChecked_eq_some hk7 h9
  · rw [parse_datetime_some hres, hkeq]
    rw [if_neg (by simp)]
    rw [if_neg (by simp [awareNow])]
    exact ⟨_, rfl⟩

/-- Witness for C2 at Monday and the sample instant. -/
theorem c2_next_weekday_witness :
    ∃ dt k,
      resolveDt ("next " ++ dayNameS 0) (awareNow none sampleNow) = some dt ∧
      k = (if ((0 : Fin 7).val + 7 - weekday sampleNow.date) % 7 = 0 then 7
           else ((0 : Fin 7).val + 7 - weekday sampleNow.date) % 7) ∧
      dt.date = addDaysDate sampleNow.date k ∧
      toOrdinal sampleNow.date < toOrdinal dt.date ∧
      weekday dt.date = (0 : Fin 7).val ∧
      dt.hour = 9 ∧ dt.minute = 0 ∧ dt.second = 0 ∧
      addDaysDTChecked (awareNow none sampleNow) k =
        some (addDaysDT (awareNow none sampleNow) k) ∧
      (∃ x, parse_datetime ("next " ++ dayNameS 0) none sampleNow =
        some (.dateTime x ((none : Option Tz).getD pytzUTC).name)) :=
  c2_next_weekday 0 none sampleNow (by decide) (by decide)

/-- Counterexample to C10 as stated: at the valid calendar date
9999-12-29 a six-day shift — an offset the `next <weekday>` branch
computes for a suitable target weekday — passes `datetime.max`, so the
source raises `OverflowError` instead of yielding the computed date. -/
theorem c10_counterexample :
    ValidDate ⟨9999, 12, 29⟩ ∧
    addDaysDTChecked ⟨⟨9999, 12, 29⟩, 10, 0, 0, some 0⟩ 6 = none := by
  decide

/-- C10 (amended): for every canonical weekday name W and every real
calendar `now` lying at least seven days below the `datetime` cap,
`resolve("next " + W)` yields the earliest date strictly after `now`'s
date whose weekday is W: the offset is between 1 and 7 days inclusive,
no smaller positive offset lands on that weekday, and the shift stays
within the representable range; at the cap the source raises
`OverflowError` instead. -/
theorem c10_next_weekday_earliest :
    ∀ (i : Fin 7) (tz : Option Tz) (n : PyDateTime),
      ValidDate n.date →
      (addDaysDate n.date 7).year ≤ 9999 →
      ∃ dt k,
        resolveDt ("next " ++ dayNameS i) (awareNow tz n) = some dt ∧
        1 ≤ k ∧ k ≤ 7 ∧
        dt.date = addDaysDate n.date k ∧
        weekday dt.date = i.val ∧
        addDaysDTChecked (awareNow tz n) k = some (addDaysDT (awareNow tz n) k) ∧
        (∀ j, 1 ≤ j → j < k → weekday (addDaysDate n.date j) ≠ i.val) := by
  intro i tz n hv h9
  have hlow : pyLowerStrip ("next " ++ dayNameS i) = "next " ++ dayNameS i := by
    fin_cases i <;> decide
  have hres := resolveDt_next i hlow (awareNow tz n)
  obtain ⟨k, hk1, hk7, hkeq, hwd, hkfl, hmin⟩ :=
    nextWeekday_props i.isLt (awareNow tz n) (show ValidDate (awareNow tz n).date from hv)
  refine ⟨nextWeekdayDT i.val (awareNow tz n), k, hres, hk1, hk7, ?_, ?_, ?_, ?_⟩
  · rw [hkeq]
    rfl
  · rw [hkeq]
    exact hwd
  · exact addDaysDTChecked_eq_some hk7 h9
  · intro j h1j hjk
    exact hmin j hjk h1j

/-- Witness for C10 at Sunday and the sample instant. -/
theorem c10_next_weekday_earliest_witness :
    ∃ dt k,
      resolveDt ("next " ++ dayNameS 6) (awareNow none sampleNow) = some dt ∧
      1 ≤ k ∧ k ≤ 7 ∧
      dt.date = addDaysDate sampleNow.date k ∧
      weekday dt.date = (6 : Fin 7).val ∧
      addDaysDTChecked (awareNow none sampleNow) k =
        some (addDaysDT (awareNow none sampleNow) k) ∧
      (∀ j, 1 ≤ j → j < k → weekday (addDaysDate sampleNow.date j) ≠ (6 : Fin 7).val) :=
  c10_next_weekday_earliest 6 none sampleNow (by decide) (by decide)
